import Mathlib

/-!
Verification of the deterministic view-count simulation engine of
AUTO_BORAD2 (`simulate.py`).  The engine is shallowly embedded: Python
ints become `ℤ`/`ℕ`, Python floats become rationals rounded through an
explicit model of IEEE-754 binary64 round-to-nearest-even (needed where a
claim is about rounding), timestamps become rational epoch seconds, and
the per-post loop becomes a fuelled recursion over the tick budget.
-/

namespace AutoBoard

/-! ### Binary logarithm by fuelled halving (kernel-evaluable) -/

/-- Fuelled floor-log2 worker: halves `n` until it reaches `1`. -/
def lg2F : ℕ → ℕ → ℕ
  | 0, _ => 0
  | f + 1, n => if n ≤ 1 then 0 else lg2F f (n / 2) + 1

/-- Floor of the base-2 logarithm of `n` (0 for `n = 0`). -/
def natLog2 (n : ℕ) : ℕ := lg2F n n

/-! ### A model of IEEE-754 binary64 rounding on nonnegative rationals

`simulate.py` computes `state / 2**64` and multiplies the result by the
range span in Python floats.  `fl` reproduces binary64
round-to-nearest-even (53-bit significand, unbounded exponent) on
nonnegative rationals; every value the engine produces stays far inside
the double exponent range, so the unbounded exponent is exact.  -/

/-- Exponent `e` with `2^e ≤ q < 2^(e+1)` for positive rationals, via the
numerator/denominator binary logs. -/
def qexp (q : ℚ) : ℤ :=
  let a : ℤ := natLog2 q.num.toNat
  let b : ℤ := natLog2 q.den
  if q < (2 : ℚ) ^ (a - b) then a - b - 1 else a - b

/-- Round a rational to the nearest integer, ties to even. -/
def rne (x : ℚ) : ℤ :=
  if x - ⌊x⌋ < 1 / 2 then ⌊x⌋
  else if 1 / 2 < x - ⌊x⌋ then ⌊x⌋ + 1
  else if ⌊x⌋ % 2 = 0 then ⌊x⌋ else ⌊x⌋ + 1

/-- Round a nonnegative rational to the nearest binary64 value
(round-to-nearest-even on a 53-bit significand).  Nonpositive inputs
(never produced by the engine) are sent to `0`. -/
def fl (q : ℚ) : ℚ :=
  if 0 < q then
    let u : ℚ := (2 : ℚ) ^ (qexp q - 52)
    u * rne (q / u)
  else 0

/-- Python `int()` on a float/rational: truncation toward zero. -/
def pyInt (q : ℚ) : ℤ := if 0 ≤ q then ⌊q⌋ else -⌊-q⌋

/-- Binary64 rounding extended to negative rationals by sign symmetry
(round-to-nearest-even is symmetric about zero). -/
def flS (q : ℚ) : ℚ := if q < 0 then -fl (-q) else fl q

/-! ### The linear-congruential generator (`rng_from_seed`, lines 30–44) -/

/-- One LCG step: `state = (6364136223846793005 * state + 1) mod 2^64`
(line 37 / 42 of `simulate.py`). -/
def lcg (s : ℕ) : ℕ := (6364136223846793005 * s + 1) % 2 ^ 64

/-- `RNG.randint_inclusive(a, b)` (lines 35–40): advance the state once,
then return `a + int((state / 2**64) * span)` where the division and the
multiplication are binary64 operations (`span` is converted to a float by
the multiplication). -/
def randint_inclusive (st : ℕ) (a b : ℤ) : ℤ × ℕ :=
  let s' := lcg st
  let span : ℤ := b - a + 1
  (a + pyInt (fl (fl ((s' : ℚ) / 2 ^ 64) * fl (span : ℚ))), s')

/-- `RNG.rand()` (lines 41–43): advance the state once and return
`state / 2**64` as a binary64 value. -/
def rand (st : ℕ) : ℚ × ℕ :=
  let s' := lcg st
  (fl ((s' : ℚ) / 2 ^ 64), s')

/-- `rng_from_seed` seeding (line 34): mask to 64 bits, replacing a zero
state by `0xDEADBEEFCAFEBABE`. -/
def rng_from_seed (seed : ℤ) : ℕ :=
  let m := (seed.emod (2 ^ 64)).toNat
  if m = 0 then 0xDEADBEEFCAFEBABE else m

/-! ### Python string helpers used by `parse_tick` (lines 17–28)

`str.strip()` / `str.lower()` are modelled on ASCII (the configuration
strings the engine receives are ASCII). -/

/-- Whitespace characters removed by Python `str.strip()` (ASCII part). -/
def isPySpace (c : Char) : Bool :=
  c = ' ' || c = '\t' || c = '\n' || c = '\x0d' || c = '\x0b' || c = '\x0c'

/-- Python `str.strip()`: drop leading and trailing whitespace. -/
def pyStrip (l : List Char) : List Char :=
  ((l.dropWhile isPySpace).reverse.dropWhile isPySpace).reverse

/-- Python `str.lower()` (ASCII letters). -/
def pyLower (l : List Char) : List Char := l.map Char.toLower

/-- Decimal digit run to a natural number. -/
def digitsToNat (l : List Char) : ℕ := l.foldl (fun a c => 10 * a + (c.toNat - 48)) 0

/-- A CPython `float()` result: a finite binary64 value (as an exact
rational), an infinity (sign dropped — the engine only inspects an
infinite result to raise), or NaN. -/
inductive PyF where
  | finite (x : ℚ)
  | inf
  | nan
deriving DecidableEq

/-- Optional sign at the head of a `float()` literal (also used for the
exponent's sign): `true` means negative. -/
def pySign (l : List Char) : Bool × List Char :=
  if l.head? = some '-' then (true, l.tail)
  else if l.head? = some '+' then (false, l.tail)
  else (false, l)

/-- Continue a digit run, allowing a single `_` separator between digits
(PEP 515: `float()` accepts `1_0` but rejects `1__0`, `_1` and `1_`);
fuelled by the list length.  Returns the run's digits (separators
removed) and the unconsumed rest. -/
def digMoreF : ℕ → List Char → List Char × List Char
  | 0, l => ([], l)
  | _ + 1, [] => ([], [])
  | f + 1, c :: tl =>
    if c.isDigit then ((digMoreF f tl).1.cons c, (digMoreF f tl).2)
    else if c = '_' then
      match tl with
      | d :: tl2 =>
        if d.isDigit then ((digMoreF f tl2).1.cons d, (digMoreF f tl2).2)
        else ([], c :: tl)
      | [] => ([], [c])
    else ([], c :: tl)

/-- A maximal digit run (with `_` separators) at the head of the list; a
leading `_` starts no run. -/
def takeNum (l : List Char) : List Char × List Char :=
  match l with
  | [] => ([], [])
  | c :: tl =>
    if c.isDigit then ((digMoreF tl.length tl).1.cons c, (digMoreF tl.length tl).2)
    else ([], l)

/-- Exponent part of a `float()` literal after the `e`: an optional sign
and a digit run that must consume the whole remainder; the complete
literal's decimal value is rounded to binary64. -/
def pyFloatExp (mant : ℚ) (r : List Char) : Option PyF :=
  let sg := pySign r
  let nm := takeNum sg.2
  if nm.1.isEmpty || !nm.2.isEmpty then none
  else
    let esgn : ℤ := if sg.1 then -1 else 1
    some (.finite (flS (mant * (10 : ℚ) ^ (esgn * (digitsToNat nm.1 : ℤ)))))

/-- CPython `float()` on a character list: strip whitespace, read an
optional sign, accept `inf`/`infinity`/`nan` case-insensitively, and
otherwise read `digits [. digits]` or `. digits` (single `_` separators
between digits allowed), then an optional `e`/`E` exponent, rounding the
literal's decimal value to the nearest binary64 (`flS`).  Scope: ASCII —
the Unicode digit/space folding CPython applies before parsing is
outside the model, as the engine's configuration strings are ASCII; and
`fl`'s unbounded exponent means a literal beyond the double range gives
a huge finite value instead of an infinity (the engine's durations are
far inside the range). -/
def pyFloat (l : List Char) : Option PyF :=
  let t := pyStrip l
  let sg := pySign t
  let low := pyLower sg.2
  if low = ['i', 'n', 'f'] || low = ['i', 'n', 'f', 'i', 'n', 'i', 't', 'y'] then some .inf
  else if low = ['n', 'a', 'n'] then some .nan
  else
    let ip := takeNum sg.2
    let fp : Bool × List Char × List Char :=
      match ip.2 with
      | '.' :: r => (true, (takeNum r).1, (takeNum r).2)
      | _ => (false, [], ip.2)
    if ip.1.isEmpty && (!fp.1 || fp.2.1.isEmpty) then none
    else
      let sgn : ℚ := if sg.1 then -1 else 1
      let mant : ℚ :=
        sgn * ((digitsToNat ip.1 : ℚ) + (digitsToNat fp.2.1 : ℚ) / 10 ^ fp.2.1.length)
      match fp.2.2 with
      | [] => some (.finite (flS mant))
      | 'e' :: r3 => pyFloatExp mant r3
      | 'E' :: r3 => pyFloatExp mant r3
      | _ => none

/-- Numeric part of a duration string: `float(s[:-1])`, whose value the
`timedelta` constructor then quantizes to whole microseconds, rounding
half to even.  An infinite or NaN value raises inside `timedelta`
(`PyLong_FromDouble` / `round`); a non-numeric string raises inside
`float()`. -/
def tickVal (scale : ℚ) (pre : List Char) : Except String ℚ :=
  match pyFloat pre with
  | some (.finite x) => .ok ((rne (scale * x * 1000000) : ℚ) / 1000000)
  | some .inf => .error "cannot convert float infinity to integer"
  | some .nan => .error "cannot convert float NaN to integer"
  | none => .error "could not convert string to float"

/-- `parse_tick` (lines 17–28): strip and lowercase the string, then an
`h`/`m`/`s` suffix scales the numeric part to seconds (the returned
`timedelta` is modelled as rational seconds).  A missing or different
suffix is the `Unsupported tick_duration` error. -/
def parse_tick (s : String) : Except String ℚ :=
  let t := pyLower (pyStrip s.data)
  if t.getLast? = some 'h' then tickVal 3600 t.dropLast
  else if t.getLast? = some 'm' then tickVal 60 t.dropLast
  else if t.getLast? = some 's' then tickVal 1 t.dropLast
  else .error "Unsupported tick_duration"

/-! ### Weight normalization (lines 50–60) -/

/-- Python `sum` over floats (line 52): a left fold of binary64
additions starting from `0`. -/
def pyFSum (l : List ℚ) : ℚ := l.foldl (fun acc v => flS (acc + v)) 0

/-- `normalize_weights` (lines 50–56): keys are strings, values binary64
floats.  The total is the float sum of the values; a nonpositive total
yields the uniform 24-hour table (its value `1.0/24` is the very same
double as `mean_weight_norm`, so both are modelled by the rational
`1/24` and their quotient in the loop is exactly `1`, as it is in
binary64); otherwise every value is divided by the total in binary64
arithmetic, keeping exactly the input's keys. -/
def normalize_weights (w : List (String × ℚ)) : List (String × ℚ) :=
  let total := pyFSum (w.map (fun p => flS p.2))
  if total ≤ 0 then (List.range 24).map (fun h => (toString h, 1 / 24))
  else w.map (fun p => (p.1, flS (flS p.2 / total)))

/-- `mean_weight_norm` (lines 58–60). -/
def mean_weight_norm : ℚ := 1 / 24

/-! ### Deterministic per-post seeding (lines 46–48): SHA-256 -/

/-- 32-bit right rotation. -/
def rotr (n x : ℕ) : ℕ := ((x >>> n) ||| (x <<< (32 - n))) % 2 ^ 32

/-- SHA-256 round constants. -/
def shaK : List ℕ :=
  [1116352408, 1899447441, 3049323471, 3921009573, 961987163, 1508970993,
   2453635748, 2870763221, 3624381080, 310598401, 607225278, 1426881987,
   1925078388, 2162078206, 2614888103, 3248222580, 3835390401, 4022224774,
   264347078, 604807628, 770255983, 1249150122, 1555081692, 1996064986,
   2554220882, 2821834349, 2952996808, 3210313671, 3336571891, 3584528711,
   113926993, 338241895, 666307205, 773529912, 1294757372, 1396182291,
   1695183700, 1986661051, 2177026350, 2456956037, 2730485921, 2820302411,
   3259730800, 3345764771, 3516065817, 3600352804, 4094571909, 275423344,
   430227734, 506948616, 659060556, 883997877, 958139571, 1322822218,
   1537002063, 1747873779, 1955562222, 2024104815, 2227730452, 2361852424,
   2428436474, 2756734187, 3204031479, 3329325298]

/-- SHA-256 working variables. -/
structure Sha256State where
  a : ℕ
  b : ℕ
  c : ℕ
  d : ℕ
  e : ℕ
  f : ℕ
  g : ℕ
  h : ℕ

/-- SHA-256 initial hash value. -/
def shaInit : Sha256State :=
  ⟨1779033703, 3144134277, 1013904242, 2773480762, 1359893119, 2600822924, 528734635, 1541459225⟩

/-- One SHA-256 compression round. -/
def shaRound (st : Sha256State) (kw : ℕ × ℕ) : Sha256State :=
  let s1 := rotr 6 st.e ^^^ rotr 11 st.e ^^^ rotr 25 st.e
  let ch := (st.e &&& st.f) ^^^ ((st.e ^^^ 0xFFFFFFFF) &&& st.g)
  let t1 := (st.h + s1 + ch + kw.1 + kw.2) % 2 ^ 32
  let s0 := rotr 2 st.a ^^^ rotr 13 st.a ^^^ rotr 22 st.a
  let mj := (st.a &&& st.b) ^^^ (st.a &&& st.c) ^^^ (st.b &&& st.c)
  let t2 := (s0 + mj) % 2 ^ 32
  ⟨(t1 + t2) % 2 ^ 32, st.a, st.b, st.c, (st.d + t1) % 2 ^ 32, st.e, st.f, st.g⟩

/-- Extend the 16 message words to 64 (message schedule), `f` more words. -/
def shaSchedule : ℕ → List ℕ → List ℕ
  | 0, acc => acc
  | f + 1, acc =>
    let i := acc.length
    let w15 := acc.getD (i - 15) 0
    let w2 := acc.getD (i - 2) 0
    let s0 := rotr 7 w15 ^^^ rotr 18 w15 ^^^ (w15 >>> 3)
    let s1 := rotr 17 w2 ^^^ rotr 19 w2 ^^^ (w2 >>> 10)
    shaSchedule f (acc ++ [(acc.getD (i - 16) 0 + s0 + acc.getD (i - 7) 0 + s1) % 2 ^ 32])

/-- Compress one 16-word chunk into the hash state. -/
def shaCompress (hs : Sha256State) (ws : List ℕ) : Sha256State :=
  let w := shaSchedule 48 ws
  let t := (List.zip shaK w).foldl shaRound hs
  ⟨(hs.a + t.a) % 2 ^ 32, (hs.b + t.b) % 2 ^ 32, (hs.c + t.c) % 2 ^ 32, (hs.d + t.d) % 2 ^ 32,
   (hs.e + t.e) % 2 ^ 32, (hs.f + t.f) % 2 ^ 32, (hs.g + t.g) % 2 ^ 32, (hs.h + t.h) % 2 ^ 32⟩

/-- Big-endian bytes of a 64-bit length field. -/
def u64be (n : ℕ) : List ℕ :=
  [(n >>> 56) % 256, (n >>> 48) % 256, (n >>> 40) % 256, (n >>> 32) % 256,
   (n >>> 24) % 256, (n >>> 16) % 256, (n >>> 8) % 256, n % 256]

/-- Big-endian bytes of a 32-bit word. -/
def u32be (n : ℕ) : List ℕ := [(n >>> 24) % 256, (n >>> 16) % 256, (n >>> 8) % 256, n % 256]

/-- SHA-256 padding: `0x80`, zeros to 56 mod 64, 64-bit bit length. -/
def shaPad (msg : List ℕ) : List ℕ :=
  msg ++ [0x80] ++ List.replicate ((119 - msg.length % 64) % 64) 0 ++ u64be (8 * msg.length)

/-- Group bytes into big-endian 32-bit words. -/
def bytesToWords : List ℕ → List ℕ
  | b1 :: b2 :: b3 :: b4 :: rest => (((b1 * 256 + b2) * 256 + b3) * 256 + b4) :: bytesToWords rest
  | _ => []

/-- Split a word list into 16-word chunks (fuelled). -/
def chunk16 : ℕ → List ℕ → List (List ℕ)
  | 0, _ => []
  | f + 1, l => if l.isEmpty then [] else l.take 16 :: chunk16 f (l.drop 16)

/-- SHA-256 of a byte list. -/
def sha256 (msg : List ℕ) : List ℕ :=
  let ws := bytesToWords (shaPad msg)
  let hs := (chunk16 ws.length ws).foldl shaCompress shaInit
  u32be hs.a ++ u32be hs.b ++ u32be hs.c ++ u32be hs.d ++
    u32be hs.e ++ u32be hs.f ++ u32be hs.g ++ u32be hs.h

/-- UTF-8 bytes of one character. -/
def utf8Char (c : Char) : List ℕ :=
  let n := c.toNat
  if n < 0x80 then [n]
  else if n < 0x800 then [0xC0 + n / 64, 0x80 + n % 64]
  else if n < 0x10000 then [0xE0 + n / 4096, 0x80 + n / 64 % 64, 0x80 + n % 64]
  else [0xF0 + n / 262144, 0x80 + n / 4096 % 64, 0x80 + n / 64 % 64, 0x80 + n % 64]

/-- UTF-8 encoding of a string. -/
def utf8 (s : String) : List ℕ := s.data.foldr (fun c acc => utf8Char c ++ acc) []

/-- First bytes of a list as a big-endian unsigned integer. -/
def bytesToNatBE (l : List ℕ) : ℕ := l.foldl (fun a b => 256 * a + b) 0

/-- `seed_for_post` (lines 46–48): SHA-256 of
`"{global_seed}|{post_id}|{seed_offset}"` in UTF-8, first 8 bytes as a
big-endian unsigned integer. -/
def seed_for_post (global_seed : ℤ) (post_id : String) (seed_offset : ℤ) : ℕ :=
  bytesToNatBE ((sha256 (utf8 (toString global_seed ++ "|" ++ post_id ++ "|" ++
    toString seed_offset))).take 8)

/-! ### Timestamps

A timezone-aware datetime is modelled by its epoch value in rational
seconds; the configured `ZoneInfo` timezone is modelled by its fixed
UTC offset in seconds (the engine only ever reads the local hour and
formats local time; offset changes within a simulated window are outside
this model).  A naive `start_datetime` is interpreted in the configured
zone by the source (lines 111–113); posts carry the resolved instant. -/

/-- `t.astimezone(tz).hour` (line 129): hour-of-day of the timestamp in
the configured zone. -/
def hourOf (t : ℚ) (off : ℤ) : ℤ := ⌊(t + (off : ℚ)) / 3600⌋ % 24

/-- Civil date from days since 1970-01-01 (proleptic Gregorian). -/
def civilFromDays (z : ℤ) : ℤ × ℤ × ℤ :=
  let z' := z + 719468
  let era := z'.fdiv 146097
  let doe := z' - era * 146097
  let yoe := (doe - doe.fdiv 1460 + doe.fdiv 36524 - doe.fdiv 146096).fdiv 365
  let y := yoe + era * 400
  let doy := doe - (365 * yoe + yoe.fdiv 4 - yoe.fdiv 100)
  let mp := (5 * doy + 2).fdiv 153
  let d := doy - (153 * mp + 2).fdiv 5 + 1
  let m := mp + (if mp < 10 then 3 else -9)
  (y + (if m ≤ 2 then 1 else 0), m, d)

/-- Zero-pad a nonnegative integer to at least `w` digits. -/
def padNum (w : ℕ) (n : ℤ) : String :=
  let s := toString n
  if s.length < w then String.mk (List.replicate (w - s.length) '0') ++ s else s

/-- `isoformat_tz` (lines 62–63): `strftime("%Y-%m-%d %H:%M:%S")` of the
timestamp's local (configured-zone) time, to whole seconds. -/
def isoformat_tz (off : ℤ) (t : ℚ) : String :=
  let ls : ℤ := ⌊t + (off : ℚ)⌋
  let days := ls.fdiv 86400
  let sod := ls.emod 86400
  let ymd := civilFromDays days
  padNum 4 ymd.1 ++ "-" ++ padNum 2 ymd.2.1 ++ "-" ++ padNum 2 ymd.2.2 ++ " " ++
    padNum 2 (sod.fdiv 3600) ++ ":" ++ padNum 2 (sod.fdiv 60 % 60) ++ ":" ++
    padNum 2 (sod % 60)

/-! ### The per-post simulation loop (lines 105–160) -/

/-- One output row (line 148): running row number, post id, increment,
cumulative views, and the timestamp the row was stamped with. -/
structure Row where
  no : ℕ
  post_id : String
  views_inc : ℤ
  cum_views : ℤ
  ts : ℚ
deriving DecidableEq

/-- Tick configuration after parsing (lines 72–81): either a fixed step
or a `[min,max]` range (already swapped so that `mn ≤ mx` holds when the
input was inverted), in seconds. -/
inductive Tick where
  | fixed (q : ℚ)
  | range (mn mx : ℚ)
deriving DecidableEq

/-- Everything the loop body reads from the engine configuration. -/
structure LoopCfg where
  tzOffset : ℤ
  weights : List (String × ℚ)
  inc_min : ℤ
  inc_max : ℤ
  cap : Option ℤ
  tick : Tick

/-- Mutable state of the loop: cumulative views, current timestamp,
generator state, and the global row counter. -/
structure LoopState where
  cum : ℤ
  t : ℚ
  rng : ℕ
  rowNo : ℕ
deriving DecidableEq

/-- How a post's loop ended: `drained` via the `remaining ≤ 0` break
(line 137), `reached` via the `cum ≥ target` break (line 151), or
`exhausted` when the `max_hours` tick budget ran out (line 128). -/
inductive FinishKind where
  | drained
  | reached
  | exhausted
deriving DecidableEq

/-- The bounds/remaining clamp (lines 139–145): a remaining amount at or
below `inc_min` is forced in full; otherwise the increment is raised to
`inc_min`, capped at `inc_max`, then capped at `remaining`. -/
def clampInc (m M R inc : ℤ) : ℤ :=
  if R ≤ m then R else min (min (max inc m) M) R

/-- Time advance at the end of a tick (lines 153–160): a fixed step, or
`tick_min + rand() * span` truncated to whole seconds. -/
def advanceTime (cfg : LoopCfg) (t : ℚ) (rng : ℕ) : ℚ × ℕ :=
  match cfg.tick with
  | .fixed q => (t + q, rng)
  | .range mn mx =>
    let u := (rand rng).1
    let stepSeconds := mn + u * (mx - mn)
    (t + (pyInt stepSeconds : ℚ), (rand rng).2)

/-- Lines 129–135 of the loop body: weight lookup for the local hour, the
base draw, the scaling `base * (w / MW)` (Python float arithmetic on
these small values modelled exactly; the clamp below is insensitive to
sub-ulp error), `floor(max(0.0, ...))`, and the optional
`system_hour_cap`. -/
def preInc (cfg : LoopCfg) (s : LoopState) : ℤ :=
  let hour := hourOf s.t cfg.tzOffset
  let w := ((cfg.weights.lookup (toString hour)).getD (1 / 24) : ℚ)
  let base := (randint_inclusive s.rng cfg.inc_min cfg.inc_max).1
  let inc0 : ℤ := ⌊max 0 ((base : ℚ) * (w / mean_weight_norm))⌋
  match cfg.cap with
  | some c => min inc0 c
  | none => inc0

/-- Body of the `for k in range(max_hours)` loop (lines 128–160):
pre-clamp increment, the remaining-target break, the bounds clamp, the
row emission with its `cum ≥ target` break, and the time advance.
Returns the emitted row (if any), the next state, and the break kind
(if the loop stops here). -/
def simStep (cfg : LoopCfg) (pid : String) (target : ℤ) (s : LoopState) :
    Option Row × LoopState × Option FinishKind :=
  let inc1 := preInc cfg s
  let rng1 := (randint_inclusive s.rng cfg.inc_min cfg.inc_max).2
  if target - s.cum ≤ 0 then
    (none, { s with rng := rng1 }, some .drained)
  else
    let inc := clampInc cfg.inc_min cfg.inc_max (target - s.cum) inc1
    if 0 < inc then
      if target ≤ s.cum + inc then
        (some ⟨s.rowNo, pid, inc, s.cum + inc, s.t⟩,
          { s with cum := s.cum + inc, rng := rng1, rowNo := s.rowNo + 1 }, some .reached)
      else
        (some ⟨s.rowNo, pid, inc, s.cum + inc, s.t⟩,
          ⟨s.cum + inc, (advanceTime cfg s.t rng1).1, (advanceTime cfg s.t rng1).2,
            s.rowNo + 1⟩, none)
    else
      (none, { s with t := (advanceTime cfg s.t rng1).1, rng := (advanceTime cfg s.t rng1).2 },
        none)

/-- Result of one post's loop. -/
structure PostOut where
  rows : List Row
  fin : LoopState
  kind : FinishKind
  ticks : ℕ
deriving DecidableEq

/-- The per-post loop, fuelled by the `max_hours` tick budget. -/
def simPostGo (cfg : LoopCfg) (pid : String) (target : ℤ) :
    ℕ → LoopState → PostOut
  | 0, s => ⟨[], s, .exhausted, 0⟩
  | f + 1, s =>
    match simStep cfg pid target s with
    | (orow, s', some k) => ⟨orow.toList, s', k, 1⟩
    | (orow, s', none) =>
      let o := simPostGo cfg pid target f s'
      ⟨orow.toList ++ o.rows, o.fin, o.kind, o.ticks + 1⟩

/-! ### The whole run (`simulate`, lines 65–163) -/

/-- Stage entry (`stages_cfg["stages"][stage]`, lines 121–123). -/
structure StageCfg where
  views_min : ℤ
  views_max : ℤ
deriving DecidableEq

/-- One row of the posts CSV after field parsing (lines 108–114).
`start` is the timezone-resolved instant of `start_datetime` in epoch
seconds. -/
structure PostRow where
  post_id : String
  stage : String
  start : ℚ
  seed_offset : ℤ

/-- `tick_duration` as configured: a plain string or a min/max pair of
strings (lines 71–81). -/
inductive TickRaw where
  | fixed (s : String)
  | range (mn mx : String)

/-- Engine parameters after YAML field extraction (lines 70–88). -/
structure EngineCfg where
  tzOffset : ℤ
  tick : TickRaw
  inc_min : ℤ
  inc_max : ℤ
  hourly_weights : List (String × ℚ)
  max_hours : ℕ
  system_hour_cap : Option ℤ

/-- Failures the run can propagate: a bad duration string (`parse_tick`,
raised before the output file is opened) or a post whose stage is absent
from the stage table (`stage_map[stage]`, line 121, raised inside the
posts loop). -/
inductive SimError where
  | configError (msg : String)
  | unknownStage (postId stage : String)
deriving DecidableEq

/-- Parse the tick configuration (lines 72–81), including the min/max
swap. -/
def parseTickCfg : TickRaw → Except String Tick
  | .fixed s => (parse_tick s).map .fixed
  | .range mn mx => do
    let a ← parse_tick mn
    let b ← parse_tick mx
    pure (if b < a then .range b a else .range a b)

/-- The posts loop of `simulate` (lines 108–160): per post, derive the
seed and generator (lines 117–118), look up the stage (line 121 — a
missing stage raises there), draw the target, run the tick loop, and
thread the global row counter. -/
def runPosts (stages : List (String × StageCfg)) (cfg : LoopCfg) (maxH : ℕ) (seed : ℤ) :
    List PostRow → ℕ → Except SimError (List Row)
  | [], _ => .ok []
  | p :: rest, rowNo =>
    let post_seed := seed_for_post seed p.post_id p.seed_offset
    let rng0 := rng_from_seed (post_seed : ℤ)
    match stages.lookup p.stage with
    | none => .error (.unknownStage p.post_id p.stage)
    | some sc =>
      let target := (randint_inclusive rng0 sc.views_min sc.views_max).1
      let rng1 := (randint_inclusive rng0 sc.views_min sc.views_max).2
      let o := simPostGo cfg p.post_id target maxH ⟨0, p.start, rng1, rowNo⟩
      (runPosts stages cfg maxH seed rest o.fin.rowNo).map (o.rows ++ ·)

/-- Result of a run, with the lifecycle of the output file handle made
explicit: `opened` records that `open(out_path, ...)` (line 101) ran,
`closed` that `out_f.close()` (line 162) ran.  The source has no
`try`/`finally` or `with` around the handle, so `close` runs only when
the posts loop completes without raising. -/
structure SimOutcome where
  opened : Bool
  closed : Bool
  result : Except SimError (List Row)

/-- `simulate` (lines 65–163) from parsed inputs: tick parsing and weight
normalization happen before the output handle is opened; the posts loop
runs with the handle open; the handle is closed after the loop. -/
def simulate (posts : List PostRow) (stages : List (String × StageCfg))
    (cfg : EngineCfg) (seed : ℤ) : SimOutcome :=
  match parseTickCfg cfg.tick with
  | .error e => ⟨false, false, .error (.configError e)⟩
  | .ok tk =>
    let lc : LoopCfg :=
      ⟨cfg.tzOffset, normalize_weights cfg.hourly_weights, cfg.inc_min, cfg.inc_max,
        cfg.system_hour_cap, tk⟩
    match runPosts stages lc cfg.max_hours seed posts 1 with
    | .error e => ⟨true, false, .error e⟩
    | .ok rows => ⟨true, true, .ok rows⟩

/-- One CSV line of the output (line 148; `csv.writer` quoting is not
needed for the engine's comma-free fields). -/
def rowLine (off : ℤ) (r : Row) : String :=
  toString r.no ++ "," ++ r.post_id ++ "," ++ toString r.views_inc ++ "," ++
    toString r.cum_views ++ "," ++ isoformat_tz off r.ts

/-- The byte content written to the output file: header line (line 103)
followed by one line per emitted row, or the propagated failure. -/
def outputLines (posts : List PostRow) (stages : List (String × StageCfg))
    (cfg : EngineCfg) (seed : ℤ) : Except SimError (List String) :=
  (simulate posts stages cfg seed).result.map
    (fun rows => "No,post_id,views_inc,cum_views,datetime" :: rows.map (rowLine cfg.tzOffset))

/-- The configured tick durations denote nonnegative lengths of time
(and a range is ordered, as the engine ensures by the swap at line 79). -/
def tickOK (cfg : LoopCfg) : Prop :=
  match cfg.tick with
  | .fixed q => 0 ≤ q
  | .range mn mx => 0 ≤ mn ∧ mn ≤ mx

/-! ### Concrete fixtures used by counterexamples and witnesses -/

/-- Loop configuration whose hour-0 weight normalizes to `0`. -/
def cfgZeroW : LoopCfg := ⟨0, normalize_weights [("0", 0), ("1", 1)], 5, 10, none, .fixed 3600⟩

/-- Loop configuration with `system_hour_cap = 2` below `inc_min = 5`. -/
def cfgSmallCap : LoopCfg := ⟨0, [], 5, 10, some 2, .fixed 3600⟩

/-- Loop configuration with `system_hour_cap = 10` above `inc_min = 5`. -/
def cfgBigCap : LoopCfg := ⟨0, [], 5, 10, some 10, .fixed 3600⟩

/-- Plain loop configuration (uniform weights, fixed 1h tick). -/
def cfgPlain : LoopCfg := ⟨0, [], 5, 10, none, .fixed 3600⟩

/-- A single post referencing stage `"1"`. -/
def postsOne : List PostRow := [⟨"p1", "1", 0, 0⟩]

/-- A single post referencing the unknown stage `"99"`. -/
def postsBadStage : List PostRow := [⟨"p1", "99", 0, 0⟩]

/-- A stage table containing only stage `"1"`. -/
def stagesOne : List (String × StageCfg) := [("1", ⟨10, 50⟩)]

/-- Ten equal hourly weights (hours `"0"`–`"9"`, weight `1` each). -/
def wTen : List (String × ℚ) :=
  [("0", 1), ("1", 1), ("2", 1), ("3", 1), ("4", 1),
   ("5", 1), ("6", 1), ("7", 1), ("8", 1), ("9", 1)]

/-- A well-formed engine configuration. -/
def egCfg : EngineCfg := ⟨0, .fixed "1h", 5, 10, [("0", 1), ("1", 1)], 48, none⟩

/-- An engine configuration with a malformed `tick_duration`. -/
def egCfgBadTick : EngineCfg := ⟨0, .fixed "1x", 5, 10, [("0", 1)], 48, none⟩

end AutoBoard

namespace AutoBoard

/-! ## Helper lemmas -/

set_option maxRecDepth 8000 in
/-- C2 is false of the code in two ways: on the positive-total input
`[("5", 2)]` the result has only the key `"5"` — hour `"0"` (and 22
others) is absent; and on ten equal weights the returned binary64 values
are ten copies of the double `0.1`, whose float sum is
`9007199254740991/9007199254740992` — the double `0.9999999999999999`,
not `1.0`. -/
theorem c2_keys_counterexample :
    normalize_weights [("5", 2)] = [("5", 1)] ∧
    (normalize_weights [("5", 2)]).lookup "0" = none ∧
    pyFSum ((normalize_weights wTen).map (·.2)) = 9007199254740991 / 9007199254740992 ∧
    ((9007199254740991 : ℚ) / 9007199254740992) ≠ 1 := by
  refine ⟨?_, ?_, ?_, by norm_num⟩ <;> with_unfolding_all rfl

set_option maxRecDepth 8000 in
/-- C2 amended: for a weight table whose float total is positive,
`normalize_weights` keeps exactly the input's keys (missing hours are not
added; they default to `1/24` only at lookup time in the loop, line 130);
the returned values are binary64 quotients, so their float sum is `1.0`
exactly when the roundings cancel: it is `1` for the dyadic table
`[("0", 2), ("1", 6)]`, but not for ten equal weights. -/
theorem c2_normalize_amended (w : List (String × ℚ))
    (h : 0 < pyFSum (w.map (fun p => flS p.2))) :
    (normalize_weights w).map Prod.fst = w.map Prod.fst ∧
    pyFSum ((normalize_weights [("0", 2), ("1", 6)]).map (·.2)) = 1 ∧
    pyFSum ((normalize_weights wTen).map (·.2)) ≠ 1 := by
  refine ⟨?_, by with_unfolding_all rfl, ?_⟩
  · simp only [normalize_weights]
    rw [if_neg (not_le.2 h)]
    simp
  · have he : pyFSum ((normalize_weights wTen).map (·.2)) =
        9007199254740991 / 9007199254740992 := by
      with_unfolding_all rfl
    rw [he]
    norm_num

set_option maxRecDepth 8000 in
/-- Witness for C2 amended at the concrete table `[("0", 2), ("1", 6)]`. -/
theorem c2_normalize_witness :
    (normalize_weights [("0", 2), ("1", 6)]).map Prod.fst = ["0", "1"] ∧
    pyFSum ((normalize_weights [("0", 2), ("1", 6)]).map (·.2)) = 1 := by
  have h := c2_normalize_amended [("0", 2), ("1", 6)] (by
    have e8 : pyFSum ([(("0" : String), (2 : ℚ)), ("1", 6)].map (fun p => flS p.2)) = 8 := by
      with_unfolding_all rfl
    rw [e8]
    norm_num)
  exact ⟨h.1.trans (by with_unfolding_all rfl), h.2.1⟩

/-! ## C9 — the duration-string grammar of `parse_tick` -/

/-- C4: the embedded `simulate` (and its serialized output) is a pure
function of the global seed, the post list, the stage table and the
engine configuration: two runs on the same inputs produce identical
results, byte for byte. -/
theorem c4_deterministic (posts : List PostRow) (stages : List (String × StageCfg))
    (cfg : EngineCfg) (seed : ℤ) :
    simulate posts stages cfg seed = simulate posts stages cfg seed ∧
    outputLines posts stages cfg seed = outputLines posts stages cfg seed :=
  ⟨rfl, rfl⟩

/-! ## C6 — `randint_inclusive` range -/

set_option maxRecDepth 8000 in
/-- C6's failing input: from state `9137839865990459062`, the advanced
state is `2^64 - 1`, whose binary64 fraction `state / 2^64` rounds up to
exactly `1.0`; `randint_inclusive(0, 1)` then returns `0 + int(1.0 * 2)
= 2`, outside the inclusive range `[0, 1]` promised by the claim and by
the code's own comment (`# map to range [a,b]`, line 38). -/
theorem c6_randint_out_of_range :
    (randint_inclusive 9137839865990459062 0 1).1 = 2 ∧
    (randint_inclusive 9137839865990459062 0 1).2 = lcg 9137839865990459062 ∧
    lcg 9137839865990459062 = 2 ^ 64 - 1 ∧
    ((0 : ℤ) ≤ 1 ∧ ¬((2 : ℤ) ≤ 1)) := by
  refine ⟨?_, rfl, by with_unfolding_all rfl, by norm_num⟩
  with_unfolding_all rfl

/-! ## Step analysis shared by the loop claims -/

theorem clampInc_le_rem {m M R i : ℤ} (_hR : 0 < R) : clampInc m M R i ≤ R := by
  unfold clampInc; split_ifs <;> omega

/-- Exhaustive description of one loop iteration: the `remaining ≤ 0`
break, an emitting tick (with or without the `cum ≥ target` break), or a
non-emitting tick. -/
theorem simStep_cases (cfg : LoopCfg) (pid : String) (target : ℤ) (s : LoopState) :
    (target - s.cum ≤ 0 ∧ ∃ s1 : LoopState,
      simStep cfg pid target s = (none, s1, some .drained) ∧
      s1.cum = s.cum ∧ s1.t = s.t) ∨
    (∃ (inc : ℤ) (s1 : LoopState), 0 < inc ∧ inc ≤ target - s.cum ∧
      s1.cum = s.cum + inc ∧
      ((target ≤ s.cum + inc ∧ s1.t = s.t ∧
        simStep cfg pid target s =
          (some ⟨s.rowNo, pid, inc, s.cum + inc, s.t⟩, s1, some .reached)) ∨
      (s.cum + inc < target ∧
        s1.t = (advanceTime cfg s.t (randint_inclusive s.rng cfg.inc_min cfg.inc_max).2).1 ∧
        simStep cfg pid target s =
          (some ⟨s.rowNo, pid, inc, s.cum + inc, s.t⟩, s1, none)))) ∨
    (0 < target - s.cum ∧ ∃ s1 : LoopState,
      simStep cfg pid target s = (none, s1, none) ∧ s1.cum = s.cum ∧
      s1.t = (advanceTime cfg s.t (randint_inclusive s.rng cfg.inc_min cfg.inc_max).2).1) := by
  simp only [simStep]
  split_ifs with h1 h2 h3
  · exact Or.inl ⟨h1, _, rfl, rfl, rfl⟩
  · exact Or.inr (Or.inl ⟨clampInc cfg.inc_min cfg.inc_max (target - s.cum) (preInc cfg s),
      { s with
        cum := s.cum + clampInc cfg.inc_min cfg.inc_max (target - s.cum) (preInc cfg s),
        rng := (randint_inclusive s.rng cfg.inc_min cfg.inc_max).2,
        rowNo := s.rowNo + 1 },
      h2, clampInc_le_rem (by omega), rfl, Or.inl ⟨h3, rfl, rfl⟩⟩)
  · exact Or.inr (Or.inl ⟨clampInc cfg.inc_min cfg.inc_max (target - s.cum) (preInc cfg s),
      ⟨s.cum + clampInc cfg.inc_min cfg.inc_max (target - s.cum) (preInc cfg s),
        (advanceTime cfg s.t (randint_inclusive s.rng cfg.inc_min cfg.inc_max).2).1,
        (advanceTime cfg s.t (randint_inclusive s.rng cfg.inc_min cfg.inc_max).2).2,
        s.rowNo + 1⟩,
      h2, clampInc_le_rem (by omega), rfl, Or.inr ⟨by omega, rfl, rfl⟩⟩)
  · exact Or.inr (Or.inr ⟨by omega, _, rfl, rfl, rfl⟩)

theorem rne_nonneg {x : ℚ} (h : 0 ≤ x) : 0 ≤ rne x := by
  have hf := Int.floor_nonneg.mpr h
  unfold rne; split_ifs <;> omega

theorem fl_nonneg (q : ℚ) : 0 ≤ fl q := by
  unfold fl
  split_ifs with h
  · have hu : (0 : ℚ) < (2 : ℚ) ^ (qexp q - 52) := by positivity
    refine mul_nonneg hu.le ?_
    exact_mod_cast rne_nonneg (le_of_lt (by positivity))
  · exact le_refl 0

theorem pyInt_nonneg {q : ℚ} (h : 0 ≤ q) : 0 ≤ pyInt q := by
  unfold pyInt
  rw [if_pos h]
  exact Int.floor_nonneg.mpr h

/-- With nonnegative ordered tick durations, simulated time never moves
backwards. -/
theorem advanceTime_mono (cfg : LoopCfg) (htk : tickOK cfg) (t : ℚ) (rng : ℕ) :
    t ≤ (advanceTime cfg t rng).1 := by
  obtain ⟨tz, w, m, M, cap, tick⟩ := cfg
  cases tick with
  | fixed q =>
    simp only [tickOK] at htk
    simp only [advanceTime]
    linarith
  | range mn mx =>
    simp only [tickOK] at htk
    simp only [advanceTime]
    have hu : 0 ≤ (rand rng).1 := fl_nonneg _
    have hstep : (0 : ℚ) ≤ mn + (rand rng).1 * (mx - mn) := by
      have hmul := mul_nonneg hu (by linarith [htk.2] : (0 : ℚ) ≤ mx - mn)
      linarith [htk.1]
    have h1 : (0 : ℤ) ≤ pyInt (mn + (rand rng).1 * (mx - mn)) := pyInt_nonneg hstep
    have h2 : (0 : ℚ) ≤ (pyInt (mn + (rand rng).1 * (mx - mn)) : ℚ) := by exact_mod_cast h1
    linarith

/-! ## C1 — zero-weight hours -/

set_option maxRecDepth 8000 in
/-- C1 is false of the code: in `cfgZeroW` the normalized weight of hour
0 is `0`, yet the tick at hour 0 with remaining 100 emits a row with
increment 5 and the cumulative count grows — the raise-to-minimum clamp
(line 143) lifts the floored zero increment back to `inc_min`. -/
theorem c1_zero_weight_counterexample :
    (cfgZeroW.weights.lookup (toString (hourOf 0 cfgZeroW.tzOffset))).getD (1 / 24) = 0 ∧
    (simStep cfgZeroW "p" 100 ⟨0, 0, 1, 1⟩).1 = some ⟨1, "p", 5, 5, 0⟩ ∧
    (simStep cfgZeroW "p" 100 ⟨0, 0, 1, 1⟩).2.1.cum = 5 := by
  refine ⟨?_, ?_, ?_⟩ <;> with_unfolding_all rfl

/-- C1 amended: a zero-weight hour zeroes only the raw increment
`inc_raw`; the bounds clamp then raises it again, so with
`1 ≤ inc_min ≤ inc_max`, a nonnegative (or absent) hour cap and the
target not yet reached, the tick at a zero-weight hour still emits a row
with increment `min inc_min remaining` and the cumulative count grows by
that amount (time advances as on any non-breaking tick). -/
theorem c1_zero_weight_amended (cfg : LoopCfg) (pid : String) (target : ℤ)
    (s : LoopState)
    (hw : (cfg.weights.lookup (toString (hourOf s.t cfg.tzOffset))).getD (1 / 24) = 0)
    (hm : 1 ≤ cfg.inc_min) (hmM : cfg.inc_min ≤ cfg.inc_max)
    (hcap : ∀ c ∈ cfg.cap, 0 ≤ c)
    (hrem : 0 < target - s.cum) :
    (simStep cfg pid target s).1 =
      some ⟨s.rowNo, pid, min cfg.inc_min (target - s.cum),
        s.cum + min cfg.inc_min (target - s.cum), s.t⟩ ∧
    (simStep cfg pid target s).2.1.cum = s.cum + min cfg.inc_min (target - s.cum) := by
  have hpre : preInc cfg s = 0 := by
    simp only [preInc, hw]
    rcases hc : cfg.cap with _ | c
    · simp
    · have hc0 : 0 ≤ c := hcap c (by rw [hc]; rfl)
      simp [min_eq_left, hc0]
  have hclamp : clampInc cfg.inc_min cfg.inc_max (target - s.cum) 0 =
      min cfg.inc_min (target - s.cum) := by
    unfold clampInc; split_ifs <;> omega
  simp only [simStep, hpre, hclamp]
  rw [if_neg (by omega : ¬ target - s.cum ≤ 0),
    if_pos (by omega : (0 : ℤ) < min cfg.inc_min (target - s.cum))]
  split_ifs with h3
  · exact ⟨rfl, rfl⟩
  · exact ⟨rfl, rfl⟩

set_option maxRecDepth 8000 in
/-- Witness for C1 amended at the concrete zero-weight configuration. -/
theorem c1_zero_weight_witness :
    (simStep cfgZeroW "p" 100 ⟨0, 0, 1, 1⟩).1 =
      some ⟨1, "p", min 5 100, 0 + min 5 100, 0⟩ ∧
    (simStep cfgZeroW "p" 100 ⟨0, 0, 1, 1⟩).2.1.cum = 0 + min 5 100 :=
  c1_zero_weight_amended cfgZeroW "p" 100 ⟨0, 0, 1, 1⟩ (by with_unfolding_all rfl)
    (by decide) (by decide) (by intro c hc; cases hc) (by norm_num)

/-! ## C3 — the cumulative count never exceeds the target -/

/-- Loop invariant: starting at or below the target, every emitted row
stays at or below the target, the final count stays at or below the
target, and a target-reached exit happens exactly at the last emitted
row's cumulative value. -/
theorem simPostGo_le_target (cfg : LoopCfg) (pid : String) (target : ℤ) :
    ∀ (f : ℕ) (s : LoopState), s.cum ≤ target →
      (∀ r ∈ (simPostGo cfg pid target f s).rows, r.cum_views ≤ target) ∧
      (simPostGo cfg pid target f s).fin.cum ≤ target ∧
      ((simPostGo cfg pid target f s).kind = .reached →
        ∃ r, (simPostGo cfg pid target f s).rows.getLast? = some r ∧
          r.cum_views = (simPostGo cfg pid target f s).fin.cum ∧
          target ≤ (simPostGo cfg pid target f s).fin.cum) := by
  intro f
  induction f with
  | zero =>
    intro s hs
    refine ⟨by simp [simPostGo], hs, by simp [simPostGo]⟩
  | succ f ih =>
    intro s hs
    rcases simStep_cases cfg pid target s with ⟨h0, s1, hstep, hc1, ht1⟩ |
      ⟨inc, s1, hpos, hle, hc1, ⟨hreach, ht1, hstep⟩ | ⟨hcont, ht1, hstep⟩⟩ |
      ⟨h0, s1, hstep, hc1, ht1⟩
    · simp only [simPostGo, hstep, Option.toList_none]
      exact ⟨by simp, by omega, by simp⟩
    · simp only [simPostGo, hstep, Option.toList_some]
      refine ⟨?_, by omega, fun _ => ?_⟩
      · intro r hr
        simp only [List.mem_singleton] at hr
        subst hr
        show s.cum + inc ≤ target
        omega
      · refine ⟨⟨s.rowNo, pid, inc, s.cum + inc, s.t⟩, by simp, ?_, by omega⟩
        show s.cum + inc = s1.cum
        omega
    · obtain ⟨ihAll, ihFin, ihReach⟩ := ih s1 (by omega)
      simp only [simPostGo, hstep, Option.toList_some, List.cons_append, List.nil_append]
      refine ⟨?_, ihFin, fun hk => ?_⟩
      · intro r hr
        rcases List.mem_cons.mp hr with rfl | hr
        · show s.cum + inc ≤ target
          omega
        · exact ihAll r hr
      · obtain ⟨r, hlast, hcv, htar⟩ := ihReach hk
        refine ⟨r, ?_, hcv, htar⟩
        have hne : (simPostGo cfg pid target f s1).rows ≠ [] := by
          intro hnil
          rw [hnil] at hlast
          cases hlast
        rw [show (⟨s.rowNo, pid, inc, s.cum + inc, s.t⟩ : Row) ::
            (simPostGo cfg pid target f s1).rows =
            [⟨s.rowNo, pid, inc, s.cum + inc, s.t⟩] ++
            (simPostGo cfg pid target f s1).rows from rfl,
          List.getLast?_append_of_ne_nil _ hne]
        exact hlast
    · obtain ⟨ihAll, ihFin, ihReach⟩ := ih s1 (by omega)
      simp only [simPostGo, hstep, Option.toList_none, List.nil_append]
      exact ⟨ihAll, ihFin, ihReach⟩

/-- C3: for a nonnegative drawn target, at every point of the per-post
loop the cumulative count is at most the target (in particular on every
emitted row), and when the loop finishes by reaching the target (rather
than by exhausting the budget or draining), the final emitted row's
`cum_views` equals the target exactly. -/
theorem c3_cum_bounded (cfg : LoopCfg) (pid : String) (target : ℤ) (maxH : ℕ)
    (t0 : ℚ) (rng0 : ℕ) (n0 : ℕ) (htar : 0 ≤ target) :
    (∀ r ∈ (simPostGo cfg pid target maxH ⟨0, t0, rng0, n0⟩).rows,
      r.cum_views ≤ target) ∧
    (simPostGo cfg pid target maxH ⟨0, t0, rng0, n0⟩).fin.cum ≤ target ∧
    ((simPostGo cfg pid target maxH ⟨0, t0, rng0, n0⟩).kind = .reached →
      ∃ r, (simPostGo cfg pid target maxH ⟨0, t0, rng0, n0⟩).rows.getLast? = some r ∧
        r.cum_views = target) := by
  obtain ⟨hAll, hFin, hReach⟩ :=
    simPostGo_le_target cfg pid target maxH ⟨0, t0, rng0, n0⟩ (by simpa using htar)
  refine ⟨hAll, hFin, fun hk => ?_⟩
  obtain ⟨r, hlast, hcv, htarle⟩ := hReach hk
  exact ⟨r, hlast, by omega⟩

/-- Witness for C3 at a concrete post (target 17, bounds `[5, 10]`). -/
theorem c3_cum_bounded_witness :
    (∀ r ∈ (simPostGo cfgPlain "p" 17 48 ⟨0, 0, 1, 1⟩).rows, r.cum_views ≤ 17) ∧
    (simPostGo cfgPlain "p" 17 48 ⟨0, 0, 1, 1⟩).fin.cum ≤ 17 ∧
    ((simPostGo cfgPlain "p" 17 48 ⟨0, 0, 1, 1⟩).kind = .reached →
      ∃ r, (simPostGo cfgPlain "p" 17 48 ⟨0, 0, 1, 1⟩).rows.getLast? = some r ∧
        r.cum_views = 17) :=
  c3_cum_bounded cfgPlain "p" 17 48 0 1 1 (by norm_num)

/-! ## C5 — monotone rows -/

/-- Loop invariant for monotonicity: the emitted rows of one post carry
strictly increasing cumulative counts and non-decreasing timestamps, all
rows stay above the entry count and at or after the entry time, and the
final state does not move below/backwards either. -/
theorem simPostGo_chain (cfg : LoopCfg) (pid : String) (target : ℤ) (htk : tickOK cfg) :
    ∀ (f : ℕ) (s : LoopState),
      List.Chain' (fun a b : Row => a.cum_views < b.cum_views)
        (simPostGo cfg pid target f s).rows ∧
      List.Chain' (fun a b : Row => a.ts ≤ b.ts) (simPostGo cfg pid target f s).rows ∧
      (∀ r ∈ (simPostGo cfg pid target f s).rows, s.cum < r.cum_views ∧ s.t ≤ r.ts) ∧
      s.cum ≤ (simPostGo cfg pid target f s).fin.cum ∧
      s.t ≤ (simPostGo cfg pid target f s).fin.t := by
  intro f
  induction f with
  | zero =>
    intro s
    simp [simPostGo]
  | succ f ih =>
    intro s
    rcases simStep_cases cfg pid target s with ⟨h0, s1, hstep, hc1, ht1⟩ |
      ⟨inc, s1, hpos, hle, hc1, ⟨hreach, ht1, hstep⟩ | ⟨hcont, ht1, hstep⟩⟩ |
      ⟨h0, s1, hstep, hc1, ht1⟩
    · simp only [simPostGo, hstep, Option.toList_none]
      exact ⟨by simp, by simp, by simp, by omega, le_of_eq ht1.symm⟩
    · simp only [simPostGo, hstep, Option.toList_some]
      refine ⟨by simp, by simp, fun r hr => ?_, by omega, le_of_eq ht1.symm⟩
      simp only [List.mem_singleton] at hr
      subst hr
      refine ⟨?_, le_refl _⟩
      show s.cum < s.cum + inc
      omega
    · obtain ⟨ihc1, ihc2, ihmem, ihcum, iht⟩ := ih s1
      have hadv : s.t ≤ s1.t := by
        rw [ht1]
        exact advanceTime_mono cfg htk s.t _
      simp only [simPostGo, hstep, Option.toList_some, List.cons_append, List.nil_append]
      refine ⟨?_, ?_, ?_, by omega, le_trans hadv iht⟩
      · rw [List.chain'_cons']
        refine ⟨fun b hb => ?_, ihc1⟩
        have hb1 := (ihmem b (List.mem_of_mem_head? hb)).1
        show s.cum + inc < b.cum_views
        omega
      · rw [List.chain'_cons']
        refine ⟨fun b hb => ?_, ihc2⟩
        have hb2 := (ihmem b (List.mem_of_mem_head? hb)).2
        show s.t ≤ b.ts
        exact le_trans hadv hb2
      · intro r hr
        rcases List.mem_cons.mp hr with rfl | hr
        · refine ⟨?_, le_refl _⟩
          show s.cum < s.cum + inc
          omega
        · obtain ⟨h1, h2⟩ := ihmem r hr
          exact ⟨by omega, le_trans hadv h2⟩
    · obtain ⟨ihc1, ihc2, ihmem, ihcum, iht⟩ := ih s1
      have hadv : s.t ≤ s1.t := by
        rw [ht1]
        exact advanceTime_mono cfg htk s.t _
      simp only [simPostGo, hstep, Option.toList_none, List.nil_append]
      refine ⟨ihc1, ihc2, fun r hr => ?_, by omega, le_trans hadv iht⟩
      obtain ⟨h1, h2⟩ := ihmem r hr
      exact ⟨by omega, le_trans hadv h2⟩

/-- C5: for every post, `cum_views` is strictly increasing across the
post's emitted rows and their timestamps are non-decreasing, provided the
configured tick durations denote nonnegative lengths of time. -/
theorem c5_monotone_rows (cfg : LoopCfg) (pid : String) (target : ℤ) (maxH : ℕ)
    (s0 : LoopState) (htk : tickOK cfg) :
    List.Chain' (fun a b : Row => a.cum_views < b.cum_views)
      (simPostGo cfg pid target maxH s0).rows ∧
    List.Chain' (fun a b : Row => a.ts ≤ b.ts) (simPostGo cfg pid target maxH s0).rows := by
  obtain ⟨h1, h2, -⟩ := simPostGo_chain cfg pid target htk maxH s0
  exact ⟨h1, h2⟩

/-- Witness for C5 at a concrete post with the fixed 1-hour tick. -/
theorem c5_monotone_rows_witness :
    List.Chain' (fun a b : Row => a.cum_views < b.cum_views)
      (simPostGo cfgPlain "p" 17 48 ⟨0, 0, 1, 1⟩).rows ∧
    List.Chain' (fun a b : Row => a.ts ≤ b.ts)
      (simPostGo cfgPlain "p" 17 48 ⟨0, 0, 1, 1⟩).rows :=
  c5_monotone_rows cfgPlain "p" 17 48 ⟨0, 0, 1, 1⟩ (by show (0 : ℚ) ≤ 3600; norm_num)

/-! ## C8 — termination within the tick budget -/

theorem simPostGo_ticks_le (cfg : LoopCfg) (pid : String) (target : ℤ) :
    ∀ (f : ℕ) (s : LoopState), (simPostGo cfg pid target f s).ticks ≤ f := by
  intro f
  induction f with
  | zero => intro s; simp [simPostGo]
  | succ f ih =>
    intro s
    rcases h : simStep cfg pid target s with ⟨orow, s', _ | k⟩ <;>
      simp only [simPostGo, h]
    · exact Nat.succ_le_succ (ih s')
    · exact Nat.succ_le_succ (Nat.zero_le f)

/-- C8: the per-post loop is a fold over the `range(max_hours)` budget
(line 128): for any configuration with `max_ticks ≥ 1` it performs at
most `max_ticks` iterations, whether or not the target is reached. -/
theorem c8_loop_terminates (cfg : LoopCfg) (pid : String) (target : ℤ) (maxH : ℕ)
    (s : LoopState) (_hmax : 1 ≤ maxH) :
    (simPostGo cfg pid target maxH s).ticks ≤ maxH :=
  simPostGo_ticks_le cfg pid target maxH s

/-- Witness for C8 at a concrete post. -/
theorem c8_loop_terminates_witness :
    (simPostGo cfgPlain "p" 17 48 ⟨0, 0, 1, 1⟩).ticks ≤ 48 :=
  c8_loop_terminates cfgPlain "p" 17 48 ⟨0, 0, 1, 1⟩ (by norm_num)

/-! ## C10 — the `system_hour_cap` -/

theorem clampInc_le_cap {m M R i c : ℤ} (hm : m ≤ c) (hi : i ≤ c) (_hR : 0 < R) :
    clampInc m M R i ≤ c := by
  unfold clampInc; split_ifs <;> omega

set_option maxRecDepth 8000 in
/-- C10: when `system_hour_cap = c` is configured with
`inc_min ≤ c`, every emitted increment is at most `c` (first conjunct);
and because the cap is applied (line 135) before the raise-to-minimum
clamp (line 143), a cap below `inc_min` does not bound emitted
increments: with cap 2 and bounds `[5, 10]` the engine emits an
increment of 5 (second conjunct). -/
theorem c10_hour_cap :
    (∀ (cfg : LoopCfg) (pid : String) (target : ℤ) (s : LoopState) (c : ℤ)
      (r : Row) (s' : LoopState) (k : Option FinishKind),
      cfg.cap = some c → cfg.inc_min ≤ c →
      simStep cfg pid target s = (some r, s', k) → r.views_inc ≤ c) ∧
    ((simStep cfgSmallCap "p" 1000 ⟨0, 0, 1, 1⟩).1.map Row.views_inc = some 5 ∧
      cfgSmallCap.cap = some 2 ∧ cfgSmallCap.inc_min = 5 ∧ ¬((5 : ℤ) ≤ 2)) := by
  constructor
  · intro cfg pid target s c r s' k hc hmc hstep
    have hpre : preInc cfg s ≤ c := by
      simp only [preInc, hc]
      exact min_le_right _ _
    simp only [simStep] at hstep
    split_ifs at hstep with h1 h2 h3
    · simp at hstep
    · simp only [Prod.mk.injEq, Option.some.injEq] at hstep
      obtain ⟨rfl, -, -⟩ := hstep
      exact clampInc_le_cap hmc hpre (by omega)
    · simp only [Prod.mk.injEq, Option.some.injEq] at hstep
      obtain ⟨rfl, -, -⟩ := hstep
      exact clampInc_le_cap hmc hpre (by omega)
    · simp at hstep
  · refine ⟨?_, rfl, rfl, by norm_num⟩
    with_unfolding_all rfl

set_option maxRecDepth 8000 in
/-- Witness for the universal part of C10 at a concrete step with cap 10:
the emitted increment 7 is at most the cap. -/
theorem c10_hour_cap_witness : Row.views_inc ⟨1, "p", 7, 7, 0⟩ ≤ 10 :=
  c10_hour_cap.1 cfgBigCap "p" 1000 ⟨0, 0, 1, 1⟩ 10 ⟨1, "p", 7, 7, 0⟩
    ⟨7, 3600, 6364136223846793006, 2⟩ none rfl (by decide) (by with_unfolding_all rfl)

/-! ## C7 — output handle lifecycle -/

theorem except_map_error {α β γ : Type} (f : α → β) (x : Except γ α) (e : γ)
    (h : x.map f = .error e) : x = .error e := by
  cases x <;> simp_all [Except.map]

/-- Any failure out of the posts loop is an unknown-stage failure; the
config failures all happen before the loop. -/
theorem runPosts_error_shape (stages : List (String × StageCfg)) (cfg : LoopCfg)
    (maxH : ℕ) (seed : ℤ) :
    ∀ (ps : List PostRow) (n : ℕ) (e : SimError),
      runPosts stages cfg maxH seed ps n = .error e →
      ∃ p st, e = .unknownStage p st := by
  intro ps
  induction ps with
  | nil => intro n e h; simp [runPosts] at h
  | cons p rest ih =>
    intro n e h
    simp only [runPosts] at h
    split at h
    · injection h with h
      exact ⟨p.post_id, p.stage, h.symm⟩
    · exact ih _ e (except_map_error _ _ _ h)

/-- C7 is false of the code: `simulate` has no `try`/`finally` or `with`
around the output handle (lines 101, 162), so a post referencing the
unknown stage `"99"` propagates its failure with the handle opened but
never closed. -/
theorem c7_handle_counterexample :
    (simulate postsBadStage stagesOne egCfg 42).opened = true ∧
    (simulate postsBadStage stagesOne egCfg 42).closed = false ∧
    (simulate postsBadStage stagesOne egCfg 42).result =
      .error (.unknownStage "p1" "99") := by
  refine ⟨?_, ?_, ?_⟩ <;> with_unfolding_all rfl

/-- C7 amended: the handle is closed when the run completes normally; a
malformed duration string fails before the handle is ever opened; but a
post referencing an unknown stage id propagates with the handle opened
and not closed. -/
theorem c7_handle_amended (posts : List PostRow) (stages : List (String × StageCfg))
    (cfg : EngineCfg) (seed : ℤ) :
    ((simulate posts stages cfg seed).result.isOk = true →
      (simulate posts stages cfg seed).opened = true ∧
      (simulate posts stages cfg seed).closed = true) ∧
    (∀ p st, (simulate posts stages cfg seed).result = .error (.unknownStage p st) →
      (simulate posts stages cfg seed).opened = true ∧
      (simulate posts stages cfg seed).closed = false) ∧
    (∀ m, (simulate posts stages cfg seed).result = .error (.configError m) →
      (simulate posts stages cfg seed).opened = false ∧
      (simulate posts stages cfg seed).closed = false) := by
  rcases ht : parseTickCfg cfg.tick with e | tk
  · have hsim : simulate posts stages cfg seed = ⟨false, false, .error (.configError e)⟩ := by
      simp only [simulate, ht]
    rw [hsim]
    refine ⟨?_, ?_, ?_⟩
    · intro h; simp [Except.isOk, Except.toBool] at h
    · intro p st h; simp at h
    · intro m h; exact ⟨rfl, rfl⟩
  · rcases hr : runPosts stages
        ⟨cfg.tzOffset, normalize_weights cfg.hourly_weights, cfg.inc_min, cfg.inc_max,
          cfg.system_hour_cap, tk⟩ cfg.max_hours seed posts 1 with e' | rows
    · have hsim : simulate posts stages cfg seed = ⟨true, false, .error e'⟩ := by
        simp only [simulate, ht, hr]
      rw [hsim]
      obtain ⟨p', st', rfl⟩ := runPosts_error_shape _ _ _ _ posts 1 e' hr
      refine ⟨?_, ?_, ?_⟩
      · intro h; simp [Except.isOk, Except.toBool] at h
      · intro p st h; exact ⟨rfl, rfl⟩
      · intro m h; simp at h
    · have hsim : simulate posts stages cfg seed = ⟨true, true, .ok rows⟩ := by
        simp only [simulate, ht, hr]
      rw [hsim]
      exact ⟨fun _ => ⟨rfl, rfl⟩, fun p st h => by simp at h, fun m h => by simp at h⟩

/-- Witness for C7 amended: a malformed `tick_duration` (`"1x"`) fails
before the handle is opened. -/
theorem c7_handle_witness :
    (simulate postsOne stagesOne egCfgBadTick 42).opened = false ∧
    (simulate postsOne stagesOne egCfgBadTick 42).closed = false :=
  (c7_handle_amended postsOne stagesOne egCfgBadTick 42).2.2 "Unsupported tick_duration"
    (by with_unfolding_all rfl)

end AutoBoard
